import Mathlib

/-!
# Verification of the Radio 1 playlist-scraper core (`scrape_radio1.py`)

Shallow embedding of the line-classification and DJ-preference-learning
pipeline: strings are modelled as `List Char`, Python regular-expression
checks become explicit character-level decision functions, the mutable
per-run state (current presenter, seen-key set, statistics dictionary)
becomes explicit recursion, and Python float arithmetic on DJ scores is
modelled by exact rationals.
-/

set_option maxRecDepth 10000

namespace Radio1

/-- Strings are modelled as lists of characters. -/
abbrev Str := List Char

/-- Python `\s` / `str.strip` whitespace test (common ASCII whitespace). -/
def ws (c : Char) : Bool := c.isWhitespace

/-- Python regex `\w` word-character test (Unicode letters, digits and the
underscore; symbols, punctuation and emoji are non-word).  The embedding
decides this exactly on ASCII and on the Latin-1 Supplement and Latin
Extended-A/B blocks (U+00AA, U+00B5, U+00BA and U+00C0 to U+024F are all
letters except the multiplication and division signs U+00D7 and U+00F7,
covering the accented letters that occur in the scraped Czech pages);
every codepoint above U+024F is conservatively classified as non-word, an
underapproximation of `\w`, so a character accepted here is a Python word
character as well. -/
def isWordChar (c : Char) : Bool :=
  c.isAlphanum || c == '_' ||
  c.toNat == 0xAA || c.toNat == 0xB5 || c.toNat == 0xBA ||
  (decide (0xC0 ≤ c.toNat) && decide (c.toNat ≤ 0x24F) &&
    !(c.toNat == 0xD7) && !(c.toNat == 0xF7))

/-- Python `str.lower`, character by character. -/
def lowerStr (s : Str) : Str := s.map Char.toLower

/-- Drop leading whitespace (left part of Python `str.strip`). -/
def ltrim (s : Str) : Str := s.dropWhile ws

/-- Drop trailing whitespace (right part of Python `str.strip`). -/
def rtrim (s : Str) : Str := (s.reverse.dropWhile ws).reverse

/-- Python `str.strip()`. -/
def trim (s : Str) : Str := rtrim (ltrim s)

/-- Bool test that `pre` is an initial segment of `s`
(Python `str.startswith`, also used for anchored regex matches). -/
def isStart : Str → Str → Bool
  | [], _ => true
  | _ :: _, [] => false
  | p :: ps, c :: cs => p == c && isStart ps cs

/-- Python substring operator `needle in haystack`. -/
def containsSeq (needle : Str) : Str → Bool
  | [] => needle.isEmpty
  | c :: cs => isStart needle (c :: cs) || containsSeq needle cs

/-- Python `line.split(sep, 1)` restricted to the case used by the code:
split at the first occurrence of `sep`, `none` when `sep` does not occur. -/
def splitOnceOn (sep : Str) : Str → Option (Str × Str)
  | [] => none
  | c :: cs =>
    if isStart sep (c :: cs) then some ([], (c :: cs).drop sep.length)
    else
      match splitOnceOn sep cs with
      | some (a, b) => some (c :: a, b)
      | none => none

/-- The literal separator `" - "` used by `parse_song_line`. -/
def sepDash : Str := [' ', '-', ' ']

/-- Regex `\d{1,2}[.:]\d{2}` anchored at the start of the input: consume one
or two digits, a dot or colon, and two digits, returning the rest of the
input, or `none` when there is no match.  (The alternation is deterministic:
the two-digit branch applies exactly when the second character is a digit.) -/
def parseTime : Str → Option Str
  | a :: b :: rest =>
    if !a.isDigit then none
    else if b.isDigit then
      match rest with
      | c :: d :: e :: rest2 =>
        if (c == '.' || c == ':') && d.isDigit && e.isDigit then some rest2 else none
      | _ => none
    else if b == '.' || b == ':' then
      match rest with
      | c :: d :: rest2 => if c.isDigit && d.isDigit then some rest2 else none
      | _ => none
    else none
  | _ => none

/-- The time-range part `\d{1,2}[.:]\d{2}\s*[-–]\s*\d{1,2}[.:]\d{2}` of the
DJ-header regex, anchored at the start; returns the suffix after the second
time expression. -/
def matchTimeHeader (s : Str) : Option Str :=
  match parseTime s with
  | none => none
  | some r1 =>
    match r1.dropWhile ws with
    | [] => none
    | d :: r2 =>
      if d == '-' || d == '–' then
        match parseTime (r2.dropWhile ws) with
        | some r3 => some r3
        | none => none
      else none

/-- Python `name.split('/')[-1]`: the segment after the last `'/'`
(the whole string when no `'/'` occurs). -/
def afterLastSlash (s : Str) : Str :=
  (s.reverse.takeWhile (fun c => c != '/')).reverse

/-- `extract_dj_name` from `scrape_radio1.py`.

The primary pattern `^\d{1,2}[.:]\d{2}\s*[-–]\s*\d{1,2}[.:]\d{2}\s*(.+)$` is
tried on the stripped input; the group is stripped, a `show / presenter`
candidate keeps only the text after the last slash, and the candidate is
accepted only when its length is strictly between 2 and 50.  In the regex,
`.` does not match a newline, so the remainder after the time range matches
`\s*(.+)$` exactly when it is nonempty after dropping its leading whitespace
and that remainder contains no newline (the stripped input cannot end in
whitespace, so `$` must sit at the very end).  When the primary pattern or
the length check fails, the remaining source code scans a set of
disqualifying patterns and returns `None` on every path, so that part is
modelled as `none`. -/
def extract_dj_name (text : Str) : Option Str :=
  let t := trim text
  match matchTimeHeader t with
  | some rest =>
    let g := rest.dropWhile ws
    if g ≠ [] ∧ ¬ (g.contains '\n' = true) then
      let name0 := trim g
      let name := if name0.contains '/' then trim (afterLastSlash name0) else name0
      if 2 < name.length ∧ name.length < 50 then some name else none
    else none
  | none => none

/-- Regex `^\d+\s*$`: one or more digits followed only by whitespace. -/
def onlyDigitsLine (s : Str) : Bool :=
  !(s.takeWhile Char.isDigit).isEmpty && (s.dropWhile Char.isDigit).all ws

/-- Regex `^[🛒\s]+$`: a nonempty line of cart emojis and whitespace. -/
def emojiOnlyLine (s : Str) : Bool :=
  !s.isEmpty && s.all (fun c => c == '🛒' || ws c)

/-- The `skip_patterns` list of `parse_song_line`, each applied with
`re.search` to the stripped line. -/
def skipPatternsMatch (l : Str) : Bool :=
  (parseTime l).isSome ||
  (isStart "http://".toList l || isStart "https://".toList l) ||
  onlyDigitsLine l ||
  (l.contains '\x7b' || l.contains '\x7d') ||
  isStart "Zobrazit".toList l ||
  emojiOnlyLine l ||
  containsSeq "Stroke".toList l ||
  containsSeq "Fill".toList l ||
  containsSeq "Width".toList l

/-- Regex `^[\W\s]+$` (with `re.match`): a nonempty string consisting
entirely of non-word characters (whitespace is also non-word). -/
def allNonWord (s : Str) : Bool :=
  !s.isEmpty && s.all (fun c => !isWordChar c)

/-- `parse_song_line` from `scrape_radio1.py`: strip, reject short lines and
noise patterns, split at the first `" - "`, strip and validate both halves. -/
def parse_song_line (line : Str) : Option (Str × Str) :=
  let l := trim line
  if l = [] ∨ l.length < 5 then none
  else if skipPatternsMatch l = true then none
  else
    match splitOnceOn sepDash l with
    | some (a0, t0) =>
      let artist := trim a0
      let title := trim t0
      if artist.length < 2 ∨ title.length < 2 then none
      else if allNonWord artist = true ∨ allNonWord title = true then none
      else if 100 < artist.length ∨ 150 < title.length then none
      else some (artist, title)
    | none => none

/-- The line-by-line fallback scan of `scrape_program` (full page text split
into lines): strip each line, skip empty lines, let a recognised DJ header
update the current presenter, and emit `(artist, title, current_dj)` for
every line the song parser accepts. -/
def scrape_program_lines (current_dj : Str) : List Str → List (Str × Str × Str)
  | [] => []
  | l :: ls =>
    let line := trim l
    if line.isEmpty then scrape_program_lines current_dj ls
    else
      match extract_dj_name line with
      | some dj => scrape_program_lines dj ls
      | none =>
        match parse_song_line line with
        | some (a, t) => (a, t, current_dj) :: scrape_program_lines current_dj ls
        | none => scrape_program_lines current_dj ls

/-! ## Deduplication (`main`, removal of duplicates while preserving order) -/

/-- The deduplication key of `main`: `(song[0].lower(), song[1].lower())`. -/
def recordKey (r : Str × Str × Str) : Str × Str := (lowerStr r.1, lowerStr r.2.1)

/-- The dedupe loop of `main` with its `seen` set made explicit. -/
def dedupeAux (seen : List (Str × Str)) : List (Str × Str × Str) → List (Str × Str × Str)
  | [] => []
  | r :: rs =>
    if recordKey r ∈ seen then dedupeAux seen rs
    else r :: dedupeAux (recordKey r :: seen) rs

/-- Duplicate removal of `main`: keep the first occurrence of each
case-insensitive `(artist, title)` key, preserving order. -/
def dedupe (songs : List (Str × Str × Str)) : List (Str × Str × Str) :=
  dedupeAux [] songs

/-- Stated from the claim wording, for comparison with `dedupe`: the
subsequence of first occurrences in input order — keep each record and
discard every later record carrying the same case-insensitive key. -/
def firstOccurrences : List (Str × Str × Str) → List (Str × Str × Str)
  | [] => []
  | r :: rs =>
    r :: firstOccurrences (rs.filter (fun x => recordKey x != recordKey r))
termination_by l => l.length
decreasing_by
  simp only [List.length_cons]
  exact Nat.lt_succ_of_le (List.length_filter_le _ _)

/-! ## DJ statistics (`DJStats` and the genre lists) -/

/-- `PREFERRED_GENRES` from `scrape_radio1.py`. -/
def PREFERRED_GENRES : List Str :=
  ["rock".toList, "indie".toList, "alternative".toList, "post-punk".toList,
   "shoegaze".toList, "grunge".toList, "punk".toList, "new wave".toList,
   "brit".toList, "garage".toList, "psychedelic".toList, "progressive".toList,
   "electronic".toList, "synth".toList, "dream pop".toList, "noise".toList,
   "experimental".toList]

/-- `AVOIDED_GENRES` from `scrape_radio1.py`. -/
def AVOIDED_GENRES : List Str :=
  ["rap".toList, "hip hop".toList, "hip-hop".toList, "trap".toList,
   "drill".toList, "grime".toList, "r&b".toList, "rnb".toList,
   "reggaeton".toList, "urban".toList, "gangsta".toList]

/-- The dataclass `DJStats`.  `genre_counts` is the Python dict modelled as
an insertion-ordered association list; counters are Python ints. -/
structure DJStats where
  name : Str
  songs_count : Int := 0
  genre_counts : List (Str × Int) := []
  preferred_score : Int := 0
  avoided_score : Int := 0
deriving DecidableEq, Repr

/-- Python `d[k] = d.get(k, 0) + 1` on an association-list dict. -/
def incrCount : List (Str × Int) → Str → List (Str × Int)
  | [], k => [(k, 1)]
  | (k1, v) :: rest, k =>
    if k1 = k then (k1, v + 1) :: rest else (k1, v) :: incrCount rest k

/-- Python `d.get(k, 0)` on an association-list dict. -/
def lookupCount : List (Str × Int) → Str → Int
  | [], _ => 0
  | (k1, v) :: rest, k => if k1 = k then v else lookupCount rest k

/-- The `for pref in ...: if pref in genre_lower: score += 1; break` loop of
`DJStats.add_genres`: 1 at the first list entry occurring as a substring of
`g`, 0 when none occurs. -/
def firstMatchBump (terms : List Str) (g : Str) : Int :=
  match terms with
  | [] => 0
  | p :: ps => if containsSeq p g then 1 else firstMatchBump ps g

/-- The per-tag body of `DJStats.add_genres`. -/
def addGenre (s : DJStats) (genre : Str) : DJStats :=
  let g := lowerStr genre
  { s with
    genre_counts := incrCount s.genre_counts g
    preferred_score := s.preferred_score + firstMatchBump PREFERRED_GENRES g
    avoided_score := s.avoided_score + firstMatchBump AVOIDED_GENRES g }

/-- `DJStats.add_genres`: fold the per-tag update over the genre list. -/
def DJStats.add_genres (s : DJStats) (genres : List Str) : DJStats :=
  genres.foldl addGenre s

/-- The `score` property of `DJStats`; Python float division is modelled by
exact rational division. -/
def DJStats.score (s : DJStats) : ℚ :=
  if s.songs_count = 0 then 0
  else ((s.preferred_score : ℚ) - (s.avoided_score : ℚ)) / (s.songs_count : ℚ)

/-- The `classification` property of `DJStats`. -/
def DJStats.classification (s : DJStats) : Str :=
  if s.score > 1/10 then "preferred".toList
  else if s.score < -(1/10) then "avoided".toList
  else "neutral".toList

/-! ## Persisted stats store (`load_dj_stats`, `DJStats.from_dict`) -/

/-- One serialized presenter entry as parsed from the JSON stats file: each
field is present or absent (Python `dict` with `data["name"]` and
`data.get(..., default)` access). -/
structure EntryDict where
  name : Option Str := none
  songs_count : Option Int := none
  genre_counts : Option (List (Str × Int)) := none
  preferred_score : Option Int := none
  avoided_score : Option Int := none
deriving DecidableEq, Repr

/-- `DJStats.from_dict`: `data["name"]` raises `KeyError` when absent
(modelled as `none`); the remaining fields fall back to their defaults. -/
def DJStats.from_dict (d : EntryDict) : Option DJStats :=
  match d.name with
  | none => none
  | some n =>
    some { name := n
           songs_count := d.songs_count.getD 0
           genre_counts := d.genre_counts.getD []
           preferred_score := d.preferred_score.getD 0
           avoided_score := d.avoided_score.getD 0 }

/-- The dict comprehension of `load_dj_stats`: build the store entry by
entry, failing as a whole as soon as one entry raises. -/
def loadEntries : List (Str × EntryDict) → Option (List (Str × DJStats))
  | [] => some []
  | (k, d) :: rest =>
    match DJStats.from_dict d, loadEntries rest with
    | some s, some m => some ((k, s) :: m)
    | _, _ => none

/-- `load_dj_stats`: a missing or unparseable file (`none`) and any
exception inside the comprehension both yield the empty store. -/
def load_dj_stats (file : Option (List (Str × EntryDict))) : List (Str × DJStats) :=
  match file with
  | none => []
  | some data =>
    match loadEntries data with
    | some m => m
    | none => []

/-! ## Genre analysis (`analyze_dj_genres`) -/

/-- Outcome of the per-song Spotify genre lookup in `analyze_dj_genres`:
the search call raises, the search returns no track, the artist-info call
raises, or the artist genre list is obtained. -/
inductive LookupResult where
  | searchError : LookupResult
  | noTrack : LookupResult
  | artistError : LookupResult
  | ok : List Str → LookupResult
deriving DecidableEq, Repr

/-- A lookup outcome that contributes nothing to the statistics: the two
exception paths are caught by `except: continue`, and an empty search
result simply skips the `if tracks:` body. -/
def LookupResult.isFailure : LookupResult → Bool
  | .ok _ => false
  | _ => true

/-- The per-song body of the `analyze_dj_genres` loop: on a successful
lookup increment `songs_count` and fold in the genre tags, otherwise leave
the statistics untouched and move on. -/
def processSong (oracle : Str × Str → LookupResult) (s : DJStats) (song : Str × Str) : DJStats :=
  match oracle song with
  | .ok genres => DJStats.add_genres { s with songs_count := s.songs_count + 1 } genres
  | _ => s

/-- Python dict lookup `m[k]` / `k in m` on an association list. -/
def alookup {α : Type} : List (Str × α) → Str → Option α
  | [], _ => none
  | (k1, v) :: rest, k => if k1 = k then some v else alookup rest k

/-- Python dict update `m[k] = v` on an insertion-ordered association list. -/
def aset {α : Type} : List (Str × α) → Str → α → List (Str × α)
  | [], k, v => [(k, v)]
  | (k1, v1) :: rest, k, v =>
    if k1 = k then (k1, v) :: rest else (k1, v1) :: aset rest k v

/-- The `songs_by_dj` grouping of `analyze_dj_genres`: an insertion-ordered
dict from presenter to that presenter's `(artist, title)` list. -/
def groupByDJ (songs : List (Str × Str × Str)) : List (Str × List (Str × Str)) :=
  songs.foldl
    (fun acc r =>
      match alookup acc r.2.2 with
      | some l => aset acc r.2.2 (l ++ [(r.1, r.2.1)])
      | none => acc ++ [(r.2.2, [(r.1, r.2.1)])])
    []

/-- `analyze_dj_genres` with the Spotify client abstracted into `oracle`:
group songs by presenter, then for each presenter fold the per-song update
over that presenter's songs, starting from the loaded statistics (or a
fresh `DJStats` for a presenter without an entry). -/
def analyze_dj_genres (oracle : Str × Str → LookupResult)
    (songs : List (Str × Str × Str)) (dj_stats : List (Str × DJStats)) :
    List (Str × DJStats) :=
  (groupByDJ songs).foldl
    (fun st g =>
      let init := (alookup st g.1).getD { name := g.1 }
      aset st g.1 (g.2.foldl (processSong oracle) init))
    dj_stats

/-! ## Classification filter (`main`, `--filter-djs` branch) -/

/-- The classification-filter loop of `main`: known presenters are kept
when classified `preferred`, or classified `neutral` with
`--include-neutral`; unknown presenters are kept only with
`--include-neutral`. -/
def filter_djs (dj_stats : List (Str × DJStats)) (include_neutral : Bool) :
    List (Str × Str × Str) → List (Str × Str × Str)
  | [] => []
  | (a, t, d) :: rs =>
    match alookup dj_stats d with
    | some s =>
      if s.classification = "preferred".toList then
        (a, t, d) :: filter_djs dj_stats include_neutral rs
      else if s.classification = "neutral".toList ∧ include_neutral = true then
        (a, t, d) :: filter_djs dj_stats include_neutral rs
      else filter_djs dj_stats include_neutral rs
    | none =>
      if include_neutral = true then (a, t, d) :: filter_djs dj_stats include_neutral rs
      else filter_djs dj_stats include_neutral rs

/-- Stated from the claim wording, for comparison with `filter_djs`: a song
is kept exactly when its presenter is classified `preferred`, or the
inclusion flag is set and the presenter is classified `neutral`, or the
inclusion flag is set and the presenter has no stats entry. -/
def keepByClassification (dj_stats : List (Str × DJStats)) (include_neutral : Bool)
    (r : Str × Str × Str) : Bool :=
  match alookup dj_stats r.2.2 with
  | some s =>
    decide (s.classification = "preferred".toList) ||
      (include_neutral && decide (s.classification = "neutral".toList))
  | none => include_neutral

/-! ## General helper lemmas -/

theorem processSong_of_isFailure (oracle : Str × Str → LookupResult) (song : Str × Str)
    (h : (oracle song).isFailure = true) (x : DJStats) : processSong oracle x song = x := by
  unfold processSong
  cases horacle : oracle song <;> simp_all [LookupResult.isFailure]

theorem loadEntries_eq_none (data : List (Str × EntryDict)) (k : Str) (d : EntryDict)
    (hmem : (k, d) ∈ data) (hname : d.name = none) : loadEntries data = none := by
  induction data with
  | nil => cases hmem
  | cons hd tl ih =>
    rcases List.mem_cons.mp hmem with h | h
    · obtain ⟨k1, d1⟩ := hd
      obtain ⟨hk, hd⟩ := Prod.mk.injEq .. ▸ h
      subst hd
      simp [loadEntries, DJStats.from_dict, hname]
    · have := ih h
      obtain ⟨k1, d1⟩ := hd
      cases hfd : DJStats.from_dict d1 <;> simp [loadEntries, hfd, this]

theorem firstMatchBump_eq (terms : List Str) (g : Str) :
    firstMatchBump terms g = if terms.any (fun p => containsSeq p g) then 1 else 0 := by
  induction terms with
  | nil => simp [firstMatchBump]
  | cons p ps ih => by_cases h : containsSeq p g <;> simp [firstMatchBump, h, ih]

theorem lookupCount_incrCount (m : List (Str × Int)) (k k1 : Str) :
    lookupCount (incrCount m k) k1 = lookupCount m k1 + (if k = k1 then 1 else 0) := by
  induction m with
  | nil => by_cases h : k = k1 <;> simp [incrCount, lookupCount, h]
  | cons hd tl ih =>
    obtain ⟨k2, v⟩ := hd
    by_cases h2 : k2 = k
    · subst h2
      by_cases h1 : k2 = k1 <;> simp [incrCount, lookupCount, h1]
    · by_cases h1 : k2 = k1
      · subst h1
        have : ¬ k = k2 := fun h => h2 h.symm
        simp [incrCount, lookupCount, h2, this]
      · simp [incrCount, lookupCount, h1, h2, ih]

/-- C4: `add_genres` processes each tag independently — the lowercased
tag's entry in `genre_counts` grows by exactly the number of occurrences of
that tag, `preferred_score` grows by exactly 1 per tag whose lowercase form
contains some entry of the PREFERRED list (the first-match break gives at
most one preferred increment per tag), `avoided_score` independently grows
by exactly 1 per tag containing some entry of the AVOIDED list, a tag
matching both lists bumps both counters, and `songs_count` is untouched. -/
theorem spec_C4 (s : DJStats) (gs : List Str) :
    (s.add_genres gs).name = s.name ∧
    (s.add_genres gs).songs_count = s.songs_count ∧
    (∀ k, lookupCount (s.add_genres gs).genre_counts k =
      lookupCount s.genre_counts k + (gs.countP (fun g => decide (lowerStr g = k)) : Int)) ∧
    (s.add_genres gs).preferred_score = s.preferred_score +
      (gs.countP (fun g => PREFERRED_GENRES.any (fun p => containsSeq p (lowerStr g))) : Int) ∧
    (s.add_genres gs).avoided_score = s.avoided_score +
      (gs.countP (fun g => AVOIDED_GENRES.any (fun p => containsSeq p (lowerStr g))) : Int) := by
  induction gs generalizing s with
  | nil => simp [DJStats.add_genres]
  | cons g gs ih =>
    have step : s.add_genres (g :: gs) = (addGenre s g).add_genres gs := rfl
    obtain ⟨ihn, ihc, ihg, ihp, iha⟩ := ih (addGenre s g)
    rw [step]
    refine ⟨ihn, ihc, ?_, ?_, ?_⟩
    · intro k
      rw [ihg k]
      show lookupCount (incrCount s.genre_counts (lowerStr g)) k + _ = _
      rw [lookupCount_incrCount]
      by_cases hk : lowerStr g = k <;> simp [hk, List.countP_cons] <;> omega
    · rw [ihp]
      show s.preferred_score + firstMatchBump PREFERRED_GENRES (lowerStr g) + _ = _
      rw [firstMatchBump_eq]
      by_cases hm : PREFERRED_GENRES.any (fun p => containsSeq p (lowerStr g)) <;>
        simp [hm, List.countP_cons] <;> omega
    · rw [iha]
      show s.avoided_score + firstMatchBump AVOIDED_GENRES (lowerStr g) + _ = _
      rw [firstMatchBump_eq]
      by_cases hm : AVOIDED_GENRES.any (fun p => containsSeq p (lowerStr g)) <;>
        simp [hm, List.countP_cons] <;> omega

theorem dedupeAux_eq_firstOccurrences (l : List (Str × Str × Str)) :
    ∀ seen, dedupeAux seen l =
      firstOccurrences (l.filter (fun r => decide (recordKey r ∉ seen))) := by
  induction l with
  | nil => intro seen; simp [dedupeAux, firstOccurrences]
  | cons r rs ih =>
    intro seen
    by_cases h : recordKey r ∈ seen
    · simp only [dedupeAux, if_pos h, ih seen]
      congr 1
      simp [List.filter_cons, h]
    · simp only [dedupeAux, if_neg h, ih (recordKey r :: seen)]
      have hcons : List.filter (fun x => decide (recordKey x ∉ seen)) (r :: rs) =
          r :: List.filter (fun x => decide (recordKey x ∉ seen)) rs := by
        simp [List.filter_cons, h]
      rw [hcons, firstOccurrences, List.filter_filter]
      congr 2
      apply List.filter_congr
      intro x _
      by_cases h1 : recordKey x = recordKey r <;> by_cases h2 : recordKey x ∈ seen <;>
        simp [h1, h2]

theorem mem_of_mem_firstOccurrences (l : List (Str × Str × Str)) :
    ∀ x ∈ firstOccurrences l, x ∈ l := by
  induction l using firstOccurrences.induct with
  | case1 => simp [firstOccurrences]
  | case2 r rs ih =>
    intro x hx
    rw [firstOccurrences] at hx
    rcases List.mem_cons.mp hx with h | h
    · simp [h]
    · exact List.mem_cons_of_mem r (List.mem_of_mem_filter (ih x h))

theorem pairwise_firstOccurrences (l : List (Str × Str × Str)) :
    (firstOccurrences l).Pairwise (fun a b => recordKey a ≠ recordKey b) := by
  induction l using firstOccurrences.induct with
  | case1 => simp [firstOccurrences]
  | case2 r rs ih =>
    rw [firstOccurrences]
    refine List.Pairwise.cons ?_ ih
    intro y hy
    have := List.mem_filter.mp (mem_of_mem_firstOccurrences _ y hy)
    have hne := this.2
    simp only [bne_iff_ne, ne_eq] at hne
    exact fun h => hne h.symm

theorem dedupeAux_sublist (l : List (Str × Str × Str)) :
    ∀ seen, (dedupeAux seen l).Sublist l := by
  induction l with
  | nil => intro seen; simp [dedupeAux]
  | cons r rs ih =>
    intro seen
    by_cases h : recordKey r ∈ seen
    · simp only [dedupeAux, if_pos h]
      exact (ih seen).cons r
    · simp only [dedupeAux, if_neg h]
      exact (ih (recordKey r :: seen)).cons₂ r

theorem not_ws_of_isWordChar (c : Char) (h : isWordChar c = true) : ws c = false := by
  cases hw : ws c
  · rfl
  · exfalso
    have hcase : c = ' ' ∨ c = '\t' ∨ c = '\r' ∨ c = '\n' := by
      have h2 := hw
      simp [ws, Char.isWhitespace] at h2
      tauto
    rcases hcase with rfl | rfl | rfl | rfl <;> exact absurd h (by decide)

theorem any_not_ws_of_any_word (a : Str) (h : a.any isWordChar = true) :
    a.any (fun c => !ws c) = true := by
  rw [List.any_eq_true] at h ⊢
  obtain ⟨c, hc, hw⟩ := h
  exact ⟨c, hc, by simp [not_ws_of_isWordChar c hw]⟩

theorem ltrim_append (a rest : Str) (h : a.any (fun c => !ws c) = true) :
    ltrim (a ++ rest) = ltrim a ++ rest := by
  induction a with
  | nil => simp at h
  | cons c a1 ih =>
    by_cases hc : ws c = true
    · have h1 : a1.any (fun c => !ws c) = true := by simpa [hc] using h
      show List.dropWhile ws ((c :: a1) ++ rest) = List.dropWhile ws (c :: a1) ++ rest
      rw [List.cons_append, List.dropWhile_cons, if_pos hc, List.dropWhile_cons, if_pos hc]
      exact ih h1
    · simp [ltrim, List.cons_append, List.dropWhile_cons, hc]

theorem rtrim_append (x t : Str) (h : t.any (fun c => !ws c) = true) :
    rtrim (x ++ t) = x ++ rtrim t := by
  show ((x ++ t).reverse.dropWhile ws).reverse = x ++ (t.reverse.dropWhile ws).reverse
  rw [List.reverse_append]
  have hstep : (t.reverse ++ x.reverse).dropWhile ws = t.reverse.dropWhile ws ++ x.reverse := by
    have := ltrim_append t.reverse x.reverse (by rwa [List.any_reverse])
    simpa [ltrim] using this
  rw [hstep, List.reverse_append, List.reverse_reverse]

theorem ltrim_allws_append (w z : Str) (h : ∀ c ∈ w, ws c = true) :
    ltrim (w ++ z) = ltrim z := by
  induction w with
  | nil => simp
  | cons c w1 ih =>
    have hc := h c (List.mem_cons_self c w1)
    simp only [ltrim, List.cons_append, List.dropWhile_cons, hc, if_true]
    exact ih (fun c hc => h c (List.mem_cons_of_mem _ hc))

theorem dropWhile_append_singleton (p : Char → Bool) (xs : Str) (c : Char) (h : p c = false) :
    (xs ++ [c]).dropWhile p = xs.dropWhile p ++ [c] := by
  induction xs with
  | nil => simp [List.dropWhile_cons, h]
  | cons x xs1 ih => by_cases hx : p x = true <;> simp [List.dropWhile_cons, hx, ih]

theorem rtrim_cons_not_ws (c : Char) (u : Str) (h : ws c = false) :
    rtrim (c :: u) = c :: (u.reverse.dropWhile ws).reverse := by
  show ((c :: u).reverse.dropWhile ws).reverse = _
  rw [List.reverse_cons, dropWhile_append_singleton ws u.reverse c h, List.reverse_append]
  simp

theorem ltrim_idem (s : Str) : ltrim (ltrim s) = ltrim s :=
  List.dropWhile_idempotent ws s

theorem rtrim_idem (s : Str) : rtrim (rtrim s) = rtrim s := by
  show (((s.reverse.dropWhile ws).reverse).reverse.dropWhile ws).reverse = _
  rw [List.reverse_reverse, List.dropWhile_idempotent]
  rfl

theorem trim_ltrim_eq (s : Str) : trim (ltrim s) = trim s := by
  unfold trim
  rw [ltrim_idem]

theorem dropWhile_head_not (p : Char → Bool) (l : Str) (c : Char) (u : Str)
    (h : l.dropWhile p = c :: u) : p c = false := by
  induction l with
  | nil => simp [List.dropWhile] at h
  | cons x xs ih =>
    rw [List.dropWhile_cons] at h
    by_cases hx : p x = true
    · rw [if_pos hx] at h
      exact ih h
    · rw [if_neg hx] at h
      injection h with h1 h2
      subst h1
      simpa using hx

theorem mem_dropWhile_of_not (p : Char → Bool) (l : Str) (c : Char)
    (hc : c ∈ l) (hp : p c = false) : c ∈ l.dropWhile p := by
  induction l with
  | nil => cases hc
  | cons x xs ih =>
    rw [List.dropWhile_cons]
    by_cases hx : p x = true
    · rw [if_pos hx]
      rcases List.mem_cons.mp hc with rfl | hmem
      · rw [hp] at hx
        cases hx
      · exact ih hmem
    · rw [if_neg hx]
      exact hc

theorem trim_rtrim_eq (t : Str) (h : t.any (fun c => !ws c) = true) :
    trim (rtrim t) = trim t := by
  have hdecomp : t.takeWhile ws ++ ltrim t = t := List.takeWhile_append_dropWhile ws t
  have hwall : ∀ c ∈ t.takeWhile ws, ws c = true := fun c hc => List.mem_takeWhile_imp hc
  have huany : (ltrim t).any (fun c => !ws c) = true := by
    rw [List.any_eq_true] at h ⊢
    obtain ⟨c, hc, hcw⟩ := h
    refine ⟨c, ?_, hcw⟩
    have hnw : ws c = false := by
      cases hws : ws c
      · rfl
      · rw [hws] at hcw
        simp at hcw
    exact mem_dropWhile_of_not ws t c hc hnw
  obtain ⟨c, u2, hcu⟩ : ∃ c u2, ltrim t = c :: u2 := by
    cases hl : ltrim t with
    | nil => rw [hl] at huany; simp at huany
    | cons c u2 => exact ⟨c, u2, rfl⟩
  have hc_not_ws : ws c = false := dropWhile_head_not ws t c u2 hcu
  have h1 : rtrim t = t.takeWhile ws ++ rtrim (ltrim t) := by
    conv_lhs => rw [← hdecomp]
    exact rtrim_append _ _ huany
  rw [h1]
  show trim (t.takeWhile ws ++ rtrim (ltrim t)) = trim t
  unfold trim
  rw [ltrim_allws_append _ _ hwall]
  have h2 : ltrim (rtrim (ltrim t)) = rtrim (ltrim t) := by
    rw [hcu, rtrim_cons_not_ws c u2 hc_not_ws]
    simp [ltrim, List.dropWhile_cons, hc_not_ws]
  rw [h2, rtrim_idem]

theorem length_rtrim_le (s : Str) : (rtrim s).length ≤ s.length := by
  show ((s.reverse.dropWhile ws).reverse).length ≤ s.length
  rw [List.length_reverse]
  calc (s.reverse.dropWhile ws).length
      ≤ s.reverse.length := (List.dropWhile_sublist _).length_le
    _ = s.length := List.length_reverse s

theorem length_trim_le_ltrim (s : Str) : (trim s).length ≤ (ltrim s).length :=
  length_rtrim_le (ltrim s)

theorem containsSeq_cons_of (n : Str) (c : Char) (l : Str)
    (h : containsSeq n l = true) : containsSeq n (c :: l) = true := by
  simp [containsSeq, h]

theorem containsSeq_append_left (n pre s : Str)
    (h : containsSeq n s = true) : containsSeq n (pre ++ s) = true := by
  induction pre with
  | nil => simpa
  | cons c p ih => simpa [List.cons_append] using containsSeq_cons_of n c _ ih

theorem isStart_sepDash_mid (x : Char) (l B : Str)
    (h : isStart sepDash (x :: (l ++ (sepDash ++ B))) = true) :
    containsSeq sepDash (x :: (l ++ [' '])) = true := by
  cases l with
  | nil => simp [sepDash, isStart] at h
  | cons d l1 =>
    cases l1 with
    | nil =>
      simp [sepDash, isStart] at h
      obtain ⟨hx, hd⟩ := h
      subst hx
      subst hd
      decide
    | cons e l2 =>
      simp [sepDash, isStart] at h
      obtain ⟨hx, hd, he⟩ := h
      subst hx
      subst hd
      subst he
      simp [containsSeq, isStart, sepDash]

theorem splitOnceOn_boundary (A B : Str)
    (h : containsSeq sepDash (A ++ [' ']) = false) :
    splitOnceOn sepDash (A ++ (sepDash ++ B)) = some (A, B) := by
  induction A with
  | nil =>
    show splitOnceOn sepDash ([' ', '-', ' '] ++ B) = some ([], B)
    simp [splitOnceOn, isStart, sepDash]
  | cons x A1 ih =>
    have hstart : isStart sepDash (x :: (A1 ++ (sepDash ++ B))) = false := by
      cases hs : isStart sepDash (x :: (A1 ++ (sepDash ++ B)))
      · rfl
      · exfalso
        have hmid := isStart_sepDash_mid x A1 B hs
        rw [List.cons_append] at h
        rw [h] at hmid
        cases hmid
    have hA1 : containsSeq sepDash (A1 ++ [' ']) = false := by
      rw [List.cons_append, containsSeq] at h
      exact (Bool.or_eq_false_iff.mp h).2
    rw [List.cons_append]
    rw [splitOnceOn]
    simp only [hstart, Bool.false_eq_true, if_false, ih hA1]

theorem mem_trim_of_not_ws (s : Str) (c : Char) (hc : c ∈ s) (hp : ws c = false) :
    c ∈ trim s := by
  show c ∈ rtrim (ltrim s)
  unfold rtrim
  rw [List.mem_reverse]
  apply mem_dropWhile_of_not _ _ _ ?_ hp
  rw [List.mem_reverse]
  exact mem_dropWhile_of_not _ _ _ hc hp

theorem allNonWord_eq_false (s : Str) (c : Char) (hc : c ∈ s) (hw : isWordChar c = true) :
    allNonWord s = false := by
  unfold allNonWord
  have hall : s.all (fun c => !isWordChar c) = false := by
    cases hall : s.all (fun c => !isWordChar c)
    · rfl
    · have := List.all_eq_true.mp hall c hc
      rw [hw] at this
      simp at this
  simp [hall]

/-! ## Claim theorems -/

/-- C1: the slot scanner, started with current presenter `"Unknown"`, maps
the four lines `["06.00 - 09.00 Jane Doe", "Queen - Bohemian Rhapsody",
"07.00 - 10.00 John Roe", "Dua Lipa - Levitating"]` to exactly the records
`[(Queen, Bohemian Rhapsody, Jane Doe), (Dua Lipa, Levitating, John Roe)]`
in that order; each header line is recognised by the DJ-header detector
(updating the current presenter, never emitted as a song), and each emitted
song carries the most recently seen header name above it. -/
theorem spec_C1 :
    scrape_program_lines "Unknown".toList
      ["06.00 - 09.00 Jane Doe".toList, "Queen - Bohemian Rhapsody".toList,
       "07.00 - 10.00 John Roe".toList, "Dua Lipa - Levitating".toList] =
      [("Queen".toList, "Bohemian Rhapsody".toList, "Jane Doe".toList),
       ("Dua Lipa".toList, "Levitating".toList, "John Roe".toList)] ∧
    extract_dj_name "06.00 - 09.00 Jane Doe".toList = some "Jane Doe".toList ∧
    extract_dj_name "07.00 - 10.00 John Roe".toList = some "John Roe".toList := by
  refine ⟨by decide, by decide, by decide⟩

/-- C2: for every `DJStats` value, the classification is `"preferred"`
exactly when the score exceeds `0.1`, `"avoided"` exactly when the score is
below `-0.1`, and `"neutral"` exactly otherwise (so a score of exactly
`0.1` or `-0.1` is `"neutral"`). -/
theorem spec_C2 (s : DJStats) :
    (s.classification = "preferred".toList ↔ s.score > 1/10) ∧
    (s.classification = "avoided".toList ↔ s.score < -(1/10)) ∧
    (s.classification = "neutral".toList ↔ (s.score ≤ 1/10 ∧ -(1/10) ≤ s.score)) := by
  unfold DJStats.classification
  split_ifs with h1 h2
  · exact ⟨iff_of_true rfl h1,
      iff_of_false (by decide) (by intro h; linarith),
      iff_of_false (by decide) (by intro h; linarith [h.1])⟩
  · exact ⟨iff_of_false (by decide) h1,
      iff_of_true rfl h2,
      iff_of_false (by decide) (by intro h; linarith [h.2])⟩
  · exact ⟨iff_of_false (by decide) h1,
      iff_of_false (by decide) h2,
      iff_of_true rfl ⟨le_of_not_lt h1, le_of_not_lt h2⟩⟩

/-- C3: the derived score is `0` whenever `songs_count = 0`, regardless of
the two score counters, and is `(preferred_score - avoided_score) /
songs_count` whenever `songs_count > 0`; the guard ensures the division is
only taken with a nonzero divisor. -/
theorem spec_C3 (s : DJStats) :
    (s.songs_count = 0 → s.score = 0) ∧
    (0 < s.songs_count →
      s.score = ((s.preferred_score : ℚ) - (s.avoided_score : ℚ)) / (s.songs_count : ℚ)) := by
  constructor
  · intro h
    simp [DJStats.score, h]
  · intro h
    have hne : s.songs_count ≠ 0 := by omega
    simp [DJStats.score, hne]

/-- Witness for C3 at the spec scenario of 8 preferred points, 1 avoided
point and 10 analyzed songs: the score is `0.7`. -/
theorem spec_C3_witness :
    DJStats.score ⟨"Jane Doe".toList, 10, [], 8, 1⟩ = 7/10 := by
  rw [(spec_C3 ⟨"Jane Doe".toList, 10, [], 8, 1⟩).2 (by norm_num)]
  norm_num

/-- C5: the deduplicator emits exactly the subsequence of first
occurrences in input order — its output equals the first-occurrence
filter stated by the claim, no two output records share a
case-insensitive `(artist, title)` key, and the output is a subsequence of
the input (first-seen relative order preserved, the presenter of a later
duplicate discarded with the whole duplicate record). -/
theorem spec_C5 (songs : List (Str × Str × Str)) :
    dedupe songs = firstOccurrences songs ∧
    (dedupe songs).Pairwise (fun a b => recordKey a ≠ recordKey b) ∧
    (dedupe songs).Sublist songs := by
  have heq : dedupe songs = firstOccurrences songs := by
    rw [dedupe, dedupeAux_eq_firstOccurrences songs []]
    congr 1
    simp
  exact ⟨heq, heq ▸ pairwise_firstOccurrences songs, dedupeAux_sublist songs []⟩

/-- C7: the classification filter keeps a song exactly when its presenter
is classified `preferred`, or the inclusion flag is set and the presenter
is classified `neutral`, or the inclusion flag is set and the presenter
has no stats entry; it is a filter of the input list, so relative order of
kept songs is preserved, and a song kept for a known presenter never has
an `avoided` classification. -/
theorem spec_C7 (dj_stats : List (Str × DJStats)) (include_neutral : Bool)
    (songs : List (Str × Str × Str)) :
    filter_djs dj_stats include_neutral songs =
      songs.filter (keepByClassification dj_stats include_neutral) ∧
    ∀ r ∈ filter_djs dj_stats include_neutral songs,
      ∀ s, alookup dj_stats r.2.2 = some s → s.classification ≠ "avoided".toList := by
  have heq : filter_djs dj_stats include_neutral songs =
      songs.filter (keepByClassification dj_stats include_neutral) := by
    induction songs with
    | nil => simp [filter_djs]
    | cons r0 rs ih =>
      obtain ⟨a, t, d⟩ := r0
      rw [List.filter_cons]
      cases hlook0 : alookup dj_stats d with
      | some s0 =>
        by_cases hpref : s0.classification = "preferred".toList
        · have hkeep : keepByClassification dj_stats include_neutral (a, t, d) = true := by
            simp [keepByClassification, hlook0, hpref]
          simp only [filter_djs, hlook0]
          rw [if_pos hpref, if_pos hkeep, ih]
        · by_cases hneut : s0.classification = "neutral".toList ∧ include_neutral = true
          · have hkeep : keepByClassification dj_stats include_neutral (a, t, d) = true := by
              simp [keepByClassification, hlook0, hneut.1, hneut.2]
            simp only [filter_djs, hlook0]
            rw [if_neg hpref, if_pos hneut, if_pos hkeep, ih]
          · have hkeep : keepByClassification dj_stats include_neutral (a, t, d) = false := by
              simp only [keepByClassification, hlook0, Bool.or_eq_false_iff,
                Bool.and_eq_false_iff, decide_eq_false_iff_not]
              refine ⟨hpref, ?_⟩
              by_cases hb : include_neutral = true
              · right
                intro hcl0
                exact hneut ⟨hcl0, hb⟩
              · left
                simpa using hb
            simp only [filter_djs, hlook0]
            rw [if_neg hpref, if_neg hneut, if_neg (by simp [hkeep]), ih]
      | none =>
        have hkeep : keepByClassification dj_stats include_neutral (a, t, d) = include_neutral := by
          simp [keepByClassification, hlook0]
        simp only [filter_djs, hlook0]
        by_cases hb : include_neutral = true
        · rw [if_pos hb, if_pos (by rw [hkeep]; exact hb), ih]
        · rw [if_neg hb, if_neg (by rw [hkeep]; exact hb), ih]
  refine ⟨heq, ?_⟩
  intro r hr s hlook hcl
  rw [heq] at hr
  have hkeep := (List.mem_filter.mp hr).2
  rw [keepByClassification, hlook] at hkeep
  rcases Bool.or_eq_true_iff.mp hkeep with h | h
  · have : s.classification = "preferred".toList := of_decide_eq_true h
    rw [hcl] at this
    exact absurd this (by decide)
  · have : s.classification = "neutral".toList :=
      of_decide_eq_true (Bool.and_eq_true_iff.mp h).2
    rw [hcl] at this
    exact absurd this (by decide)

/-- Witness for C7: a presenter with score `0.7` is classified
`preferred`, the corresponding song is kept, and that classification is
not `avoided`. -/
theorem spec_C7_witness :
    DJStats.classification ⟨"Ann".toList, 10, [], 8, 1⟩ ≠ "avoided".toList := by
  have hscore : DJStats.score ⟨"Ann".toList, 10, [], 8, 1⟩ = 7/10 := by
    norm_num [DJStats.score]
  have hcl : DJStats.classification ⟨"Ann".toList, 10, [], 8, 1⟩ = "preferred".toList := by
    simp only [DJStats.classification, hscore]
    norm_num
  have h := spec_C7 [("Ann".toList, ⟨"Ann".toList, 10, [], 8, 1⟩)] false
      [("Queen".toList, "Bohemian Rhapsody".toList, "Ann".toList)]
  refine h.2 ("Queen".toList, "Bohemian Rhapsody".toList, "Ann".toList) ?_
    ⟨"Ann".toList, 10, [], 8, 1⟩ rfl
  rw [h.1]
  simp [keepByClassification, alookup]
  exact hcl

/-- C6 (counterexample to the claim as stated): artist `"AC - DC"` and
title `"Back In Black"` satisfy every hypothesis of the claim (lengths in
bounds, both halves containing word characters), yet the classifier splits
the concatenated line at the FIRST `" - "`, inside the artist, returning
`(AC, DC - Back In Black)` rather than the claimed `(AC - DC, Back In
Black)`. -/
theorem spec_C6_counterexample :
    (2 ≤ "AC - DC".toList.length ∧ "AC - DC".toList.length ≤ 100 ∧
     2 ≤ "Back In Black".toList.length ∧ "Back In Black".toList.length ≤ 150 ∧
     "AC - DC".toList.any isWordChar = true ∧
     "Back In Black".toList.any isWordChar = true) ∧
    parse_song_line ("AC - DC".toList ++ sepDash ++ "Back In Black".toList) =
      some ("AC".toList, "DC - Back In Black".toList) ∧
    parse_song_line ("AC - DC".toList ++ sepDash ++ "Back In Black".toList) ≠
      some (trim "AC - DC".toList, trim "Back In Black".toList) := by
  refine ⟨by decide, by decide, by decide⟩

/-- C6 (amended): for all strings `a` and `t` whose stripped forms have
lengths in `[2, 100]` and `[2, 150]` respectively, each containing at least
one word character, such that `" - "` does not occur inside `a`
(precisely: not in `a ++ " "`), and the concatenated line matches none of
the noise skip patterns, the classifier applied to `a + " - " + t` returns
the song with artist `a.strip()` and title `t.strip()`. -/
theorem spec_C6_amended (a t : Str)
    (ha2 : 2 ≤ (trim a).length) (ha100 : (trim a).length ≤ 100)
    (ht2 : 2 ≤ (trim t).length) (ht150 : (trim t).length ≤ 150)
    (haw : a.any isWordChar = true) (htw : t.any isWordChar = true)
    (hsep : containsSeq sepDash (a ++ [' ']) = false)
    (hskip : skipPatternsMatch (trim (a ++ sepDash ++ t)) = false) :
    parse_song_line (a ++ sepDash ++ t) = some (trim a, trim t) := by
  have hanw := any_not_ws_of_any_word a haw
  have htnw := any_not_ws_of_any_word t htw
  have hl : trim (a ++ sepDash ++ t) = ltrim a ++ (sepDash ++ rtrim t) := by
    unfold trim
    rw [List.append_assoc, ltrim_append a (sepDash ++ t) hanw, ← List.append_assoc,
      rtrim_append (ltrim a ++ sepDash) t htnw, List.append_assoc]
  have hla2 : 2 ≤ (ltrim a).length := le_trans ha2 (length_trim_le_ltrim a)
  have hsep2 : containsSeq sepDash (ltrim a ++ [' ']) = false := by
    cases hcs : containsSeq sepDash (ltrim a ++ [' '])
    · rfl
    · exfalso
      have hall : containsSeq sepDash (a ++ [' ']) = true := by
        have hdecomp : a.takeWhile ws ++ (ltrim a ++ [' ']) = a ++ [' '] := by
          show a.takeWhile ws ++ (a.dropWhile ws ++ [' ']) = a ++ [' ']
          rw [← List.append_assoc, List.takeWhile_append_dropWhile]
        rw [← hdecomp]
        exact containsSeq_append_left _ _ _ hcs
      rw [hsep] at hall
      cases hall
  have hsplit : splitOnceOn sepDash (ltrim a ++ (sepDash ++ rtrim t)) =
      some (ltrim a, rtrim t) := splitOnceOn_boundary _ _ hsep2
  have hc1 : ¬ (ltrim a ++ (sepDash ++ rtrim t) = [] ∨
      (ltrim a ++ (sepDash ++ rtrim t)).length < 5) := by
    intro hor
    rcases hor with hnil | hlt
    · have := congrArg List.length hnil
      simp [sepDash] at this
    · simp only [List.length_append, sepDash, List.length_cons, List.length_nil] at hlt
      omega
  have hc2 : ¬ (skipPatternsMatch (ltrim a ++ (sepDash ++ rtrim t)) = true) := by
    rw [hl] at hskip
    simp [hskip]
  have hwita : ∃ c ∈ trim a, isWordChar c = true := by
    rw [List.any_eq_true] at haw
    obtain ⟨c, hc, hw⟩ := haw
    exact ⟨c, mem_trim_of_not_ws a c hc (not_ws_of_isWordChar c hw), hw⟩
  have hwitt : ∃ c ∈ trim t, isWordChar c = true := by
    rw [List.any_eq_true] at htw
    obtain ⟨c, hc, hw⟩ := htw
    exact ⟨c, mem_trim_of_not_ws t c hc (not_ws_of_isWordChar c hw), hw⟩
  have hc3 : ¬ ((trim a).length < 2 ∨ (trim t).length < 2) := by omega
  have hc4 : ¬ (allNonWord (trim a) = true ∨ allNonWord (trim t) = true) := by
    obtain ⟨c1, hc1m, hw1⟩ := hwita
    obtain ⟨c2, hc2m, hw2⟩ := hwitt
    rw [allNonWord_eq_false _ c1 hc1m hw1, allNonWord_eq_false _ c2 hc2m hw2]
    simp
  have hc5 : ¬ (100 < (trim a).length ∨ 150 < (trim t).length) := by omega
  unfold parse_song_line
  rw [hl, if_neg hc1, if_neg hc2, hsplit]
  simp only [trim_ltrim_eq a, trim_rtrim_eq t htnw]
  rw [if_neg hc3, if_neg hc4, if_neg hc5]

/-- Witness for the amended C6 at `a = "Dua Lipa"`, `t = "Levitating"`. -/
theorem spec_C6_witness :
    parse_song_line ("Dua Lipa".toList ++ sepDash ++ "Levitating".toList) =
      some (trim "Dua Lipa".toList, trim "Levitating".toList) :=
  spec_C6_amended "Dua Lipa".toList "Levitating".toList (by decide) (by decide) (by decide)
    (by decide) (by decide) (by decide) (by decide) (by decide)

/-- C8: the DJ-header detector returns a name only through the primary
time-range pattern; on every line whose stripped text does not begin with
two clock times separated by a dash it returns `none`, so free-standing
names and `show / presenter` lines without a leading time range are never
promoted to presenter names. -/
theorem spec_C8 (text : Str) (h : matchTimeHeader (trim text) = none) :
    extract_dj_name text = none := by
  simp only [extract_dj_name, h]

/-- Witness for C8 at the docstring example `"Novinky na alternativní
scéně / Josef Sedloň"`: no leading time range, hence no presenter name. -/
theorem spec_C8_witness :
    extract_dj_name "Novinky na alternativní scéně / Josef Sedloň".toList = none :=
  spec_C8 "Novinky na alternativní scéně / Josef Sedloň".toList (by decide)

/-- C9: a song whose genre lookup fails (search exception, empty search
result, or artist-info exception) leaves the presenter statistics
completely unchanged — all four counters keep their prior values — and the
surrounding fold continues over the remaining songs exactly as if the
failing song were absent. -/
theorem spec_C9 (oracle : Str × Str → LookupResult) (s : DJStats) (song : Str × Str)
    (h : (oracle song).isFailure = true) :
    processSong oracle s song = s ∧
    (processSong oracle s song).songs_count = s.songs_count ∧
    (processSong oracle s song).genre_counts = s.genre_counts ∧
    (processSong oracle s song).preferred_score = s.preferred_score ∧
    (processSong oracle s song).avoided_score = s.avoided_score ∧
    ∀ (init : DJStats) (pre post : List (Str × Str)),
      List.foldl (processSong oracle) init (pre ++ song :: post) =
        List.foldl (processSong oracle) init (pre ++ post) := by
  have key := processSong_of_isFailure oracle song h
  refine ⟨key s, by rw [key s], by rw [key s], by rw [key s], by rw [key s], ?_⟩
  intro init pre post
  simp [List.foldl_append, key (List.foldl (processSong oracle) init pre)]

/-- Witness for C9: a lookup with an empty search result leaves a concrete
statistics record untouched. -/
theorem spec_C9_witness :
    processSong (fun _ => LookupResult.noTrack)
      { name := "Jane Doe".toList, songs_count := 3, genre_counts := [("rock".toList, 2)],
        preferred_score := 2, avoided_score := 0 }
      ("Queen".toList, "Bohemian Rhapsody".toList) =
      { name := "Jane Doe".toList, songs_count := 3, genre_counts := [("rock".toList, 2)],
        preferred_score := 2, avoided_score := 0 } :=
  (spec_C9 (fun _ => LookupResult.noTrack) _ ("Queen".toList, "Bohemian Rhapsody".toList) rfl).1

/-- C10: loading the persisted store is all-or-nothing — if any single
serialized entry lacks the `"name"` field, the whole load fails and the
empty store results, discarding every well-formed entry as well. -/
theorem spec_C10 (data : List (Str × EntryDict)) (k : Str) (d : EntryDict)
    (hmem : (k, d) ∈ data) (hname : d.name = none) :
    load_dj_stats (some data) = [] := by
  simp [load_dj_stats, loadEntries_eq_none data k d hmem hname]

/-- Witness for C10: one malformed entry next to a well-formed one wipes
the whole loaded store. -/
theorem spec_C10_witness :
    load_dj_stats (some
      [("Jane Doe".toList,
        { name := some "Jane Doe".toList, songs_count := some 10,
          genre_counts := some [("rock".toList, 4)],
          preferred_score := some 8, avoided_score := some 1 }),
       ("John Roe".toList,
        { name := none, songs_count := some 5, genre_counts := some [],
          preferred_score := some 1, avoided_score := some 0 })]) = [] :=
  spec_C10 _ "John Roe".toList
    { name := none, songs_count := some 5, genre_counts := some [],
      preferred_score := some 1, avoided_score := some 0 }
    (by decide) rfl

end Radio1
